import Mathlib

/-!
# Verification of the cachalot caching library core

Shallow embedding, in Lean 4, of the manager layer of the cachalot
caching library, together with theorems settling the specification
claims about it.

Conventions of the embedding:
* JavaScript millisecond timestamps and durations are modelled as
  rationals (`ℚ`); where a claim depends on JavaScript's special
  numeric values (`NaN`, `Infinity`, the falsiness of `0`), a dedicated
  type `JSNum` makes them explicit.
* `async` methods are modelled as pure functions over the results of
  their awaited calls: the outcome of `storage.get` is passed in as an
  `Except Unit (Option Record)` argument (`.error` = the promise
  rejected), the outcome of `storage.isOutdated` as a `Bool`, and so on.
* Payloads are opaque strings (the library treats them through a
  `serialize`/`deserialize` pair it never inspects), so `deserialize`
  is modelled as the identity on `String`.
-/

namespace Cachalot

/-- A tag captured on a record at write time: `{name, version}`. -/
structure Tag where
  name : String
  version : ℚ
deriving Repr, DecidableEq

/-- The stored envelope (`Record<string>` as the managers see it):
`value` is `Option String` so that a JS `undefined` payload is
representable (`none`). -/
structure Record where
  key : String
  value : Option String
  tags : List Tag
  createdAt : ℚ
  expiresIn : ℚ
  permanent : Bool
deriving Repr, DecidableEq

/-- `deserialize` from `src/deserialize`: payloads are opaque strings to
the core, so on the modelled level deserialization is the identity. -/
def deserialize (s : String) : String := s

/-- Outcome of a single-tier manager `get`, abstracting the three exits
of the TS method bodies: a cache hit returning a deserialized value,
a direct fall back to `runExecutor(executor)` (storage read rejected),
or entry into the shared stampede-protected recompute path
(`updateCacheAndGetResult`). -/
inductive GetResult where
  | hit (v : String)
  | execFallback
  | recompute
deriving Repr, DecidableEq

/-- `ReadThroughManager.isRecordValid` (src/unnamed/part_003): the
record must be non-null, not time-expired (`!permanent &&
now > createdAt + expiresIn` must fail), and have a defined value.
The TS guard `Number(record.createdAt + record.expiresIn) || 0` only
replaces `NaN` (impossible over `ℚ`) or `0` (a fixed point of `|| 0`)
by `0`, so over `ℚ` the expire date is exactly the sum. -/
def ReadThroughManager.isRecordValid (currentDate : ℚ) (record : Option Record) : Bool :=
  match record with
  | none => false
  | some r =>
    let recordExpireDate : ℚ := r.createdAt + r.expiresIn
    let isExpired : Bool := !r.permanent && decide (currentDate > recordExpireDate)
    if isExpired then false
    else decide (r.value ≠ none)

/-- `ReadThroughManager.get` (src/unnamed/part_003), after the Bloom
pre-check allowed the storage read. `storageResult` is the settled
outcome of `await this.storage.get(key)`; `outdated` is what
`await this.storage.isOutdated(record)` returns when it is consulted.
The inner `match`es extract `record.value`; their `none` arms are
unreachable because `isRecordValid` guarantees a present, defined
value. -/
def ReadThroughManager.get (currentDate : ℚ) (storageResult : Except Unit (Option Record))
    (outdated : Bool) : GetResult :=
  match storageResult with
  | .error _ => .execFallback
  | .ok record =>
    if ReadThroughManager.isRecordValid currentDate record && !outdated then
      match record with
      | some r =>
        match r.value with
        | some v => .hit (deserialize v)
        | none => .recompute
      | none => .recompute
    else .recompute

/-- `WriteThroughManager.isRecordValid` (src/unnamed/part_002): only
non-nullness and a defined value are checked — no time or tag check. -/
def WriteThroughManager.isRecordValid (record : Option Record) : Bool :=
  match record with
  | none => false
  | some r => decide (r.value ≠ none)

/-- `WriteThroughManager.get` (src/unnamed/part_002), after the Bloom
pre-check allowed the storage read. Note the method never consults the
clock nor `storage.isOutdated`. -/
def WriteThroughManager.get (storageResult : Except Unit (Option Record)) : GetResult :=
  match storageResult with
  | .error _ => .execFallback
  | .ok record =>
    if WriteThroughManager.isRecordValid record then
      match record with
      | some r =>
        match r.value with
        | some v => .hit (deserialize v)
        | none => .recompute
      | none => .recompute
    else .recompute

/-- Options accepted by the managers' `set` (`WriteOptions`):
`expiresIn` and `permanent` are the fields the permanence claims
depend on. -/
structure WriteOptions where
  expiresIn : Option ℚ
  permanent : Option Bool
deriving Repr, DecidableEq

/-- Modelled from the spec: the storage wrapper's `set(key, value,
options)` "serializes `value`, … and writes. Honours `permanent` and
`expiresIn`. Returns the Record actually written" (§4.1); the wrapper
itself (`BaseStorage`) is not under src/, only its callers are. Tags
are resolved at write time; `createdAt` is the write-time clock. An
absent `permanent` means a non-permanent record, an absent `expiresIn`
a zero duration. -/
def storageSet (now : ℚ) (key value : String) (tags : List Tag)
    (options : WriteOptions) : Record :=
  { key := key
    value := some value
    tags := tags
    createdAt := now
    expiresIn := options.expiresIn.getD 0
    permanent := options.permanent.getD false }

/-- `WriteThroughManager.set` (src/unnamed/part_002): it forwards to
`storage.set` with `{ ...options, permanent: true }` — the spread puts
`permanent: true` after the caller's options, so it always wins. -/
def WriteThroughManager.set (now : ℚ) (key value : String) (tags : List Tag)
    (options : WriteOptions) : Record :=
  storageSet now key value tags { options with permanent := some true }

/-- `runExecutor` (src/Executor): awaits the caller's thunk and returns
its outcome; an executor failure propagates as a rejection. -/
def runExecutor (executor : Except String String) : Except String String := executor

/-- The full result of a single-tier `get` once the three exits of
`GetResult` are resolved: a hit resolves to the deserialized value,
the storage-failure exit resolves to `runExecutor executor`, and the
recompute exit to whatever `updateCacheAndGetResult` settles to
(passed in as `recomputeResult`). -/
def resolveGet (r : GetResult) (executor : Except String String)
    (recomputeResult : Except String String) : Except String String :=
  match r with
  | .hit v => .ok v
  | .execFallback => runExecutor executor
  | .recompute => recomputeResult

/-! ## JavaScript numbers, for the Refresh-Ahead constructor

The `refreshAheadFactor` validation in `RefreshAheadManager`'s
constructor depends on JavaScript numeric quirks: `0` and `NaN` are
falsy under `||`, and `isFinite` excludes `NaN` and the infinities.
`JSNum` makes these cases explicit; ordinary finite doubles are
modelled as rationals. -/

/-- A JavaScript number: a finite value (as a rational), an infinity,
or `NaN`. -/
inductive JSNum where
  | num (q : ℚ)
  | posInf
  | negInf
  | nan
deriving Repr, DecidableEq

/-- JS truthiness of a number: `0` (also `-0`) and `NaN` are falsy. -/
def JSNum.truthy : JSNum → Bool
  | .num q => decide (q ≠ 0)
  | .posInf => true
  | .negInf => true
  | .nan => false

/-- JS `isFinite` on a number. -/
def JSNum.isFinite : JSNum → Bool
  | .num _ => true
  | _ => false

/-- JS `<=` on numbers: any comparison with `NaN` is false. -/
def JSNum.le : JSNum → JSNum → Bool
  | .nan, _ => false
  | _, .nan => false
  | .num a, .num b => decide (a ≤ b)
  | .negInf, _ => true
  | _, .posInf => true
  | .posInf, _ => false
  | .num _, .negInf => false

/-- `DEFAULT_REFRESH_AHEAD_FACTOR = 0.8` (src/unnamed/part_004).
The literal is modelled as the rational 4/5; no claim depends on the
binary-double rounding of 0.8. -/
def DEFAULT_REFRESH_AHEAD_FACTOR : JSNum := .num (4/5)

/-- `RefreshAheadManager`'s constructor (src/unnamed/part_004),
restricted to the factor logic the claims are about. The input is
`options.refreshAheadFactor` (`none` = the property is absent).
`this.refreshAheadFactor = options.refreshAheadFactor ||
DEFAULT_REFRESH_AHEAD_FACTOR` replaces any falsy factor (absent, `0`,
`NaN`) by the default; the range checks then run only under
`isFinite(Number(factor))`. `.error` is a synchronously thrown
`Error` with the given message; `.ok` is successful construction,
carrying the factor the instance stores. -/
def RefreshAheadManager.construct (optFactor : Option JSNum) : Except String JSNum :=
  let factor : JSNum :=
    match optFactor with
    | none => DEFAULT_REFRESH_AHEAD_FACTOR
    | some f => if f.truthy then f else DEFAULT_REFRESH_AHEAD_FACTOR
  if factor.isFinite then
    if factor.le (.num 0) then .error "Refresh-Ahead factor should be more than 0"
    else if (JSNum.num 1).le factor then .error "Refresh-Ahead factor should be under 1"
    else .ok factor
  else .ok factor

/-! ## Refresh-Ahead get and background refresh -/

/-- `RefreshAheadManager.isRecordValid` (src/unnamed/part_004):
byte-for-byte the Read-Through validity check. -/
def RefreshAheadManager.isRecordValid (currentDate : ℚ) (record : Option Record) : Bool :=
  ReadThroughManager.isRecordValid currentDate record

/-- `RefreshAheadManager.isRecordExpireSoon` (src/unnamed/part_004):
true iff the record exists, is not permanent, and
`currentDate > createdAt + expiresIn * refreshAheadFactor` (the
`Number(...) || 0` guard is again the identity over `ℚ`). -/
def RefreshAheadManager.isRecordExpireSoon (refreshAheadFactor currentDate : ℚ)
    (record : Option Record) : Bool :=
  match record with
  | none => false
  | some r =>
    let recordExpireDate : ℚ := r.createdAt + r.expiresIn * refreshAheadFactor
    !r.permanent && decide (currentDate > recordExpireDate)

/-- `RefreshAheadManager.get` (src/unnamed/part_004), after the Bloom
pre-check allowed the storage read, with an instance whose stored
factor is finite. The second component records whether the method
started a background `refresh` (the `isRecordExpireSoon` branch);
the synchronous return value is the first component and is computed
before and independently of the refresh's outcome — the refresh
promise's errors are routed to `.catch((err) => this.logger.error(err))`. -/
def RefreshAheadManager.get (refreshAheadFactor currentDate : ℚ)
    (storageResult : Except Unit (Option Record)) (outdated : Bool) :
    GetResult × Bool :=
  match storageResult with
  | .error _ => (.execFallback, false)
  | .ok record =>
    if RefreshAheadManager.isRecordValid currentDate record && !outdated then
      match record with
      | some r =>
        match r.value with
        | some v =>
          (.hit (deserialize v),
           RefreshAheadManager.isRecordExpireSoon refreshAheadFactor currentDate record)
        | none => (.recompute, false)
      | none => (.recompute, false)
    else (.recompute, false)

/-- What a completed background `refresh` did. `refresh` itself never
rejects out of its body: the executor/set failures are caught and
logged, and the lock release sits in a `finally`. -/
structure RefreshOutcome where
  executorRan : Bool
  wrote : Option String
  releasedLock : Bool
  errorLogged : Bool
deriving Repr, DecidableEq

/-- The derived lock key of the background refresh:
`` `refreshAhead:${key}` ``. -/
def RefreshAheadManager.refreshAheadKey (key : String) : String :=
  "refreshAhead:" ++ key

/-- `RefreshAheadManager.refresh` (src/unnamed/part_004): try to lock
`refreshAhead:<key>`; under the lock run the executor and, when it and
the subsequent `storage.set` succeed, write its result; any error in
that `try` is logged and swallowed; the lock is released in `finally`.
`lockOk` is the settled value of `storage.lockKey`, `executorResult`
the executor's outcome, `setOk` whether `storage.set` succeeded. -/
def RefreshAheadManager.refresh (lockOk : Bool) (executorResult : Except String String)
    (setOk : Bool) : RefreshOutcome :=
  if lockOk then
    match executorResult with
    | .ok v =>
      if setOk then
        { executorRan := true, wrote := some v, releasedLock := true, errorLogged := false }
      else
        { executorRan := true, wrote := none, releasedLock := true, errorLogged := true }
    | .error _ =>
      { executorRan := true, wrote := none, releasedLock := true, errorLogged := true }
  else
    { executorRan := false, wrote := none, releasedLock := false, errorLogged := false }

/-! ## Multi-Level manager -/

/-- A `CacheLevel` (src/unnamed/part_005): a tier of the Multi-Level
manager. The `storage` adapter itself is external; its behaviour on
the key under study enters the model through the `fetch` argument of
`MultiLevelManager.get`. -/
structure CacheLevel where
  name : String
  priority : ℤ
  ttl : Option ℚ
  enabled : Bool
deriving Repr, DecidableEq

/-- The Multi-Level `fallbackStrategy` option. -/
inductive FallbackStrategy where
  | executor
  | nextLevel
  | fail
deriving Repr, DecidableEq

/-- Per-level counters `{hits, misses, sets, dels}` of
`MultiLevelManager.metrics`. -/
structure LevelMetrics where
  hits : ℕ
  misses : ℕ
  sets : ℕ
  dels : ℕ
deriving Repr, DecidableEq

/-- `this.levels.findIndex(level => level.enabled)` from
`populateHigherLevels` (src/unnamed/part_005): index of the first
enabled level, `-1` when none is. -/
def findIndexEnabled : List CacheLevel → ℤ
  | [] => -1
  | level :: rest =>
    if level.enabled then 0
    else
      let r := findIndexEnabled rest
      if r = -1 then -1 else r + 1

/-- `MultiLevelManager.populateHigherLevels` (src/unnamed/part_005),
as the list of storage `set` calls it attempts: pairs of the level
name and the `expiresIn` passed to `level.storage.set`. The loop runs
`i` from `0` to `foundLevelIndex - 1`, skips disabled levels, and for
the rest sets `expiresIn` to `level.ttl` when that is truthy (a set,
non-zero TTL) and otherwise leaves the caller's `options.expiresIn`. -/
def MultiLevelManager.populateHigherLevels (levels : List CacheLevel)
    (options : WriteOptions) : List (String × Option ℚ) :=
  let foundLevelIndex := findIndexEnabled levels
  if foundLevelIndex ≤ 0 then []
  else
    (List.range foundLevelIndex.toNat).filterMap fun i =>
      match levels.get? i with
      | none => none
      | some level =>
        if !level.enabled then none
        else
          let expiresIn : Option ℚ :=
            match level.ttl with
            | some t => if t ≠ 0 then some t else options.expiresIn
            | none => options.expiresIn
          some (level.name, expiresIn)

/-- The storage `set` calls attempted by `MultiLevelManager.set`
(src/unnamed/part_005): one per enabled level, with
`expiresIn = level.ttl ?? options?.expiresIn ?? 0`. -/
def MultiLevelManager.setWrites (levels : List CacheLevel)
    (options : WriteOptions) : List (String × Option ℚ) :=
  levels.filterMap fun level =>
    if !level.enabled then none
    else some (level.name, some (level.ttl.getD (options.expiresIn.getD 0)))

/-- Whether a settled `level.storage.get(key)` outcome counts as a miss
in the walk of `MultiLevelManager.get`: a rejection, a `null`, or a
falsy (empty) string. -/
def levelMisses (r : Except Unit (Option String)) : Bool :=
  match r with
  | .error _ => true
  | .ok none => true
  | .ok (some s) => decide (s = "")

/-- The level walk of `MultiLevelManager.get` (src/unnamed/part_005):
skip disabled levels; a rejected or falsy `storage.get` continues to
the next level; the first truthy serialized value wins. `fetch` gives
each level's settled `storage.get(key)` outcome. -/
def walkLevels (fetch : CacheLevel → Except Unit (Option String)) :
    List CacheLevel → Option String
  | [] => none
  | level :: rest =>
    if !level.enabled then walkLevels fetch rest
    else
      match fetch level with
      | .error _ => walkLevels fetch rest
      | .ok none => walkLevels fetch rest
      | .ok (some serializedValue) =>
        if serializedValue ≠ "" then some serializedValue
        else walkLevels fetch rest

/-- Outcome of a Multi-Level `get`. -/
inductive MLOutcome where
  | hit (v : String)
  | executorResult
  | cacheMiss (message : String)
deriving Repr, DecidableEq

/-- Observable trace of a Multi-Level `get`: its outcome, whether the
caller's executor was invoked, and the storage `set` calls attempted
on levels (name, `expiresIn`). -/
structure MLTrace where
  result : MLOutcome
  executorInvoked : Bool
  writes : List (String × Option ℚ)
deriving Repr, DecidableEq

/-- `MultiLevelManager.get` (src/unnamed/part_005), after the Bloom
pre-check allowed the walk. On a hit the value is deserialized and the
higher levels are warmed through `populateHigherLevels` before the
return. When every enabled level misses, the configured
`fallbackStrategy` decides: `executor` (and `next-level`, which
delegates to the same handler) runs the executor and `set`s all
enabled levels; `fail` throws `` `Cache miss for key: ${key}` ``. -/
def MultiLevelManager.get (strategy : FallbackStrategy) (levels : List CacheLevel)
    (fetch : CacheLevel → Except Unit (Option String)) (options : WriteOptions)
    (key : String) : MLTrace :=
  match walkLevels fetch levels with
  | some s =>
    { result := .hit (deserialize s)
      executorInvoked := false
      writes := MultiLevelManager.populateHigherLevels levels options }
  | none =>
    match strategy with
    | .executor =>
      { result := .executorResult
        executorInvoked := true
        writes := MultiLevelManager.setWrites levels options }
    | .nextLevel =>
      { result := .executorResult
        executorInvoked := true
        writes := MultiLevelManager.setWrites levels options }
    | .fail =>
      { result := .cacheMiss ("Cache miss for key: " ++ key)
        executorInvoked := false
        writes := [] }

/-- The runtime state of a `MultiLevelManager` that `enableLevel` /
`disableLevel` can touch: the ordered levels and the per-level
metrics. -/
structure MLState where
  levels : List CacheLevel
  metrics : List (String × LevelMetrics)
deriving Repr, DecidableEq

/-- `this.levels.find(l => l.name === levelName)` followed by the
in-place `level.enabled = true`: the first level with the given name
has its flag set; with no match nothing changes. -/
def enableLevelList (levelName : String) : List CacheLevel → List CacheLevel
  | [] => []
  | level :: rest =>
    if level.name = levelName then { level with enabled := true } :: rest
    else level :: enableLevelList levelName rest

/-- `disableLevel`'s counterpart of `enableLevelList`. -/
def disableLevelList (levelName : String) : List CacheLevel → List CacheLevel
  | [] => []
  | level :: rest =>
    if level.name = levelName then { level with enabled := false } :: rest
    else level :: disableLevelList levelName rest

/-- `MultiLevelManager.enableLevel` (src/unnamed/part_005): a total
method — it never throws — that mutates only the found level's flag
and leaves the metrics untouched. -/
def MultiLevelManager.enableLevel (st : MLState) (levelName : String) : MLState :=
  { st with levels := enableLevelList levelName st.levels }

/-- `MultiLevelManager.disableLevel` (src/unnamed/part_005). -/
def MultiLevelManager.disableLevel (st : MLState) (levelName : String) : MLState :=
  { st with levels := disableLevelList levelName st.levels }

/-! ## Bloom filter (src/BloomFilter.ts)

Keys enter the hash as their sequence of UTF-16 code units
(`key.charCodeAt(i)`), modelled as `List ℕ`. The sizing formulas
`calculateOptimalSize` / `calculateOptimalHashCount` use `Math.log`
over doubles, so the `(size, hashCount)` pair is carried as the
constructor-derived state it is, not re-derived; every claim about the
filter is parametric in it. -/

/-- JS `ToInt32`: wrap an integer into `[-2^31, 2^31)`. -/
def jsToInt32 (x : ℤ) : ℤ := (x + 2 ^ 31) % 2 ^ 32 - 2 ^ 31

/-- One iteration of `BloomFilter.hash`:
`hash = ((hash << 5) - hash + char) & 0xffffffff`. The `<< 5` is an
Int32 shift (`jsToInt32 (hash * 32)`), and `& 0xffffffff` is itself a
`ToInt32` (its right operand converts to `-1`). -/
def hashStep (hash : ℤ) (char : ℕ) : ℤ :=
  jsToInt32 (jsToInt32 (hash * 32) - hash + char)

/-- `BloomFilter.hash(key, seed)` (src/BloomFilter.ts): the seeded
multiplicative string hash, finished by `Math.abs`. -/
def BloomFilter.hash (key : List ℕ) (seed : ℕ) : ℕ :=
  (key.foldl hashStep (seed : ℤ)).natAbs

/-- The Bloom filter state: the derived `(size, hashCount)` pair, the
packed bit array (`bytes i` is the value of `bitArray[i]`), and the
element counter. -/
structure BloomFilter where
  size : ℕ
  hashCount : ℕ
  bytes : ℕ → ℕ
  elementCount : ℕ

/-- `getHashes(key)`: the `hashCount` seeded hashes of a key. -/
def BloomFilter.getHashes (bf : BloomFilter) (key : List ℕ) : List ℕ :=
  (List.range bf.hashCount).map (BloomFilter.hash key)

/-- The bit probe shared by `add` and `mightContain`: from a hash `h`,
`bitIndex = h % size`, `byteIndex = bitIndex / 8`,
`bitOffset = bitIndex % 8`. `checkBit` is the test
`(bitArray[byteIndex] & (1 << bitOffset)) !== 0`. -/
def checkBit (size : ℕ) (bytes : ℕ → ℕ) (h : ℕ) : Bool :=
  decide (bytes ((h % size) / 8) &&& (1 <<< ((h % size) % 8)) ≠ 0)

/-- The bit-setting step of `add`:
`bitArray[byteIndex] |= (1 << bitOffset)`. -/
def setBitStep (size : ℕ) (bytes : ℕ → ℕ) (h : ℕ) : ℕ → ℕ :=
  fun j =>
    if j = (h % size) / 8 then bytes j ||| (1 <<< ((h % size) % 8))
    else bytes j

/-- `BloomFilter.add(key)` (src/BloomFilter.ts): set the probed bit of
every seeded hash and bump `elementCount`. -/
def BloomFilter.add (bf : BloomFilter) (key : List ℕ) : BloomFilter :=
  { bf with
    bytes := (bf.getHashes key).foldl (setBitStep bf.size) bf.bytes
    elementCount := bf.elementCount + 1 }

/-- `BloomFilter.mightContain(key)` (src/BloomFilter.ts): false as soon
as one probed bit is unset, true otherwise. -/
def BloomFilter.mightContain (bf : BloomFilter) (key : List ℕ) : Bool :=
  (bf.getHashes key).all (checkBit bf.size bf.bytes)

/-- `BloomFilter.clear()` (src/BloomFilter.ts): zero the array and the
counter. -/
def BloomFilter.clear (bf : BloomFilter) : BloomFilter :=
  { bf with bytes := fun _ => 0, elementCount := 0 }

/-! ## Theorems: Bloom filter safety (C6) -/

/-- Bitwise inclusion of byte arrays: every bit set in the first is
set in the second. `add` only ORs bits in, so it is monotone in this
order. -/
def bytesLE (b1 b2 : ℕ → ℕ) : Prop :=
  ∀ j i, (b1 j).testBit i = true → (b2 j).testBit i = true

theorem bytesLE_refl (b : ℕ → ℕ) : bytesLE b b := fun _ _ h => h

theorem bytesLE_trans {b1 b2 b3 : ℕ → ℕ} (h12 : bytesLE b1 b2) (h23 : bytesLE b2 b3) :
    bytesLE b1 b3 := fun j i h => h23 j i (h12 j i h)

theorem bytesLE_setBitStep (s : ℕ) (b : ℕ → ℕ) (h : ℕ) :
    bytesLE b (setBitStep s b h) := by
  intro j i hbit
  unfold setBitStep
  split
  · simp [Nat.testBit_or, hbit]
  · exact hbit

theorem bytesLE_foldl_setBitStep (s : ℕ) :
    ∀ (hs : List ℕ) (b : ℕ → ℕ), bytesLE b (hs.foldl (setBitStep s) b)
  | [], _ => bytesLE_refl _
  | h :: hs, b =>
    bytesLE_trans (bytesLE_setBitStep s b h) (bytesLE_foldl_setBitStep s hs (setBitStep s b h))

theorem checkBit_eq_testBit (s : ℕ) (b : ℕ → ℕ) (h : ℕ) :
    checkBit s b h = (b ((h % s) / 8)).testBit ((h % s) % 8) := by
  unfold checkBit
  rw [Nat.one_shiftLeft, Nat.and_two_pow]
  cases hbit : (b ((h % s) / 8)).testBit ((h % s) % 8) <;> simp [hbit]

theorem checkBit_mono {b b' : ℕ → ℕ} (hle : bytesLE b b') (s : ℕ) (h : ℕ)
    (hc : checkBit s b h = true) : checkBit s b' h = true := by
  rw [checkBit_eq_testBit] at hc ⊢
  exact hle _ _ hc

theorem checkBit_setBitStep_self (s : ℕ) (b : ℕ → ℕ) (h : ℕ) :
    checkBit s (setBitStep s b h) h = true := by
  rw [checkBit_eq_testBit]
  unfold setBitStep
  simp [Nat.testBit_or, Nat.one_shiftLeft, Nat.testBit_two_pow_self]

theorem checkBit_foldl_of_mem (s : ℕ) :
    ∀ (hs : List ℕ) (b : ℕ → ℕ) (h : ℕ), h ∈ hs →
      checkBit s (hs.foldl (setBitStep s) b) h = true := by
  intro hs
  induction hs with
  | nil => intro b h hmem; cases hmem
  | cons h' rest ih =>
    intro b h hmem
    rcases List.mem_cons.mp hmem with heq | hmem'
    · subst heq
      exact checkBit_mono (bytesLE_foldl_setBitStep s rest (setBitStep s b h))
        s h (checkBit_setBitStep_self s b h)
    · exact ih (setBitStep s b h') h hmem'

theorem BloomFilter.add_size (bf : BloomFilter) (k : List ℕ) : (bf.add k).size = bf.size := rfl

theorem BloomFilter.add_hashCount (bf : BloomFilter) (k : List ℕ) :
    (bf.add k).hashCount = bf.hashCount := rfl

theorem BloomFilter.getHashes_add (bf : BloomFilter) (k k' : List ℕ) :
    (bf.add k').getHashes k = bf.getHashes k := rfl

theorem BloomFilter.mightContain_add_self (bf : BloomFilter) (k : List ℕ) :
    (bf.add k).mightContain k = true := by
  unfold BloomFilter.mightContain
  rw [BloomFilter.getHashes_add]
  rw [List.all_eq_true]
  intro h hmem
  exact checkBit_foldl_of_mem bf.size (bf.getHashes k) bf.bytes h hmem

theorem BloomFilter.mightContain_add_mono (bf : BloomFilter) (k k' : List ℕ)
    (hc : bf.mightContain k = true) : (bf.add k').mightContain k = true := by
  unfold BloomFilter.mightContain at hc ⊢
  rw [BloomFilter.getHashes_add]
  rw [List.all_eq_true] at hc ⊢
  intro h hmem
  exact checkBit_mono (bytesLE_foldl_setBitStep bf.size (bf.getHashes k') bf.bytes)
    bf.size h (hc h hmem)

theorem BloomFilter.mightContain_foldl_adds :
    ∀ (ks : List (List ℕ)) (bf : BloomFilter) (k : List ℕ),
      bf.mightContain k = true → (ks.foldl BloomFilter.add bf).mightContain k = true := by
  intro ks
  induction ks with
  | nil => intro bf k h; exact h
  | cons k' rest ih =>
    intro bf k h
    exact ih (bf.add k') k (bf.mightContain_add_mono k k' h)

/-- C6: for every key `k` and every Bloom filter state reachable by a
sequence of `add` calls (with no intervening `clear`): if `add k`
occurred in the sequence then `mightContain k` returns `true`;
contrapositively, `mightContain k = false` implies `add k` was never
called. -/
theorem bloom_add_implies_mightContain (bf : BloomFilter) (ks : List (List ℕ)) (k : List ℕ) :
    (k ∈ ks → (ks.foldl BloomFilter.add bf).mightContain k = true) ∧
    ((ks.foldl BloomFilter.add bf).mightContain k = false → k ∉ ks) := by
  have main : ∀ (ks' : List (List ℕ)) (bf' : BloomFilter), k ∈ ks' →
      (ks'.foldl BloomFilter.add bf').mightContain k = true := by
    intro ks'
    induction ks' with
    | nil => intro bf' hmem; cases hmem
    | cons k' rest ih =>
      intro bf' hmem
      rcases List.mem_cons.mp hmem with heq | hmem'
      · subst heq
        exact BloomFilter.mightContain_foldl_adds rest (bf'.add k) k
          (bf'.mightContain_add_self k)
      · exact ih (bf'.add k') hmem'
  refine ⟨main ks bf, fun hfalse hmem => ?_⟩
  rw [main ks bf hmem] at hfalse
  cases hfalse

/-- Witness for C6 at a concrete filter and key: the filter with
`size = 101`, `hashCount = 2` and a zeroed array, after adding the
code-unit sequence of `"Hi"`, reports `mightContain = true` for it. -/
theorem bloom_add_implies_mightContain_witness :
    (BloomFilter.mightContain
      (List.foldl BloomFilter.add ⟨101, 2, fun _ => 0, 0⟩ [[72, 105]]) [72, 105]) = true :=
  (bloom_add_implies_mightContain ⟨101, 2, fun _ => 0, 0⟩ [[72, 105]] [72, 105]).1
    (by decide)

/-! ## Theorems: Multi-Level manager (C1, C7, C10) -/

/-- Every index strictly below `findIndexEnabled levels` holds a
disabled level: `findIndex` returns the first index satisfying the
predicate. -/
theorem findIndexEnabled_lt_disabled :
    ∀ (levels : List CacheLevel) (i : ℕ), (i : ℤ) < findIndexEnabled levels →
      ∀ l, levels.get? i = some l → l.enabled = false := by
  intro levels
  induction levels with
  | nil =>
    intro i hi l hl
    simp only [findIndexEnabled] at hi
    omega
  | cons level rest ih =>
    intro i hi l hl
    simp only [findIndexEnabled] at hi
    by_cases he : level.enabled
    · rw [if_pos he] at hi; omega
    · rw [if_neg he] at hi
      by_cases hr : findIndexEnabled rest = -1
      · rw [if_pos hr] at hi; omega
      · rw [if_neg hr] at hi
        cases i with
        | zero =>
          simp only [List.get?] at hl
          cases hl
          exact eq_false_of_ne_true he
        | succ j =>
          simp only [List.get?] at hl
          have hj : (j : ℤ) < findIndexEnabled rest := by push_cast at hi ⊢; omega
          exact ih j hj l hl

/-- C1 (code bug): the warm-up loop of `populateHigherLevels` is dead
code — the bound `foundLevelIndex` is the index of the *first enabled*
level, so every index the loop visits holds a disabled level and is
skipped; no storage `set` is ever attempted. On the claim's concrete
scenario (two enabled levels, the first missing and the second holding
`"v"`), `get` returns the hit but warms nothing. -/
theorem populateHigherLevels_writes_nothing :
    (∀ (levels : List CacheLevel) (options : WriteOptions),
      MultiLevelManager.populateHigherLevels levels options = []) ∧
    MultiLevelManager.get .executor
      [⟨"L1", 1, none, true⟩, ⟨"L2", 2, none, true⟩]
      (fun level => if level.name = "L2" then .ok (some "v") else .ok none)
      ⟨some 60000, none⟩ "k" =
      ⟨.hit "v", false, []⟩ := by
  constructor
  · intro levels options
    unfold MultiLevelManager.populateHigherLevels
    by_cases hidx : findIndexEnabled levels ≤ 0
    · rw [if_pos hidx]
    · rw [if_neg hidx]
      rw [List.filterMap_eq_nil_iff]
      intro i hi
      have hlt : (i : ℤ) < findIndexEnabled levels := by
        have := List.mem_range.mp hi
        omega
      cases hget : levels.get? i with
      | none => simp
      | some l =>
        have : l.enabled = false := findIndexEnabled_lt_disabled levels i hlt l hget
        simp [this]
  · rfl

theorem walkLevels_eq_none_of_misses (fetch : CacheLevel → Except Unit (Option String)) :
    ∀ (levels : List CacheLevel),
      (∀ level ∈ levels, level.enabled = true → levelMisses (fetch level) = true) →
      walkLevels fetch levels = none := by
  intro levels
  induction levels with
  | nil => intro _; rfl
  | cons level rest ih =>
    intro hmiss
    have hrest : ∀ l ∈ rest, l.enabled = true → levelMisses (fetch l) = true :=
      fun l hl => hmiss l (List.mem_cons_of_mem _ hl)
    unfold walkLevels
    by_cases he : level.enabled
    · have hm := hmiss level (List.mem_cons_self _ _) he
      rw [he]
      simp only [Bool.not_true, Bool.false_eq_true, if_false]
      cases hf : fetch level with
      | error e => exact ih hrest
      | ok v =>
        cases v with
        | none => exact ih hrest
        | some s =>
          rw [hf] at hm
          simp only [levelMisses, decide_eq_true_eq] at hm
          simpa [hm] using ih hrest
    · rw [eq_false_of_ne_true he]
      simpa using ih hrest

/-- C7: under `fallbackStrategy = 'fail'`, when every enabled level
misses (returns a falsy value or rejects), `get` throws
`` `Cache miss for key: ${key}` ``, never invokes the executor, and
attempts no level write. -/
theorem multiLevel_fail_strategy_cacheMiss (levels : List CacheLevel)
    (fetch : CacheLevel → Except Unit (Option String)) (options : WriteOptions)
    (key : String)
    (hmiss : ∀ level ∈ levels, level.enabled = true → levelMisses (fetch level) = true) :
    MultiLevelManager.get .fail levels fetch options key =
      ⟨.cacheMiss ("Cache miss for key: " ++ key), false, []⟩ := by
  unfold MultiLevelManager.get
  rw [walkLevels_eq_none_of_misses fetch levels hmiss]

/-- Witness for C7: one enabled level whose storage holds nothing. -/
theorem multiLevel_fail_strategy_cacheMiss_witness :
    MultiLevelManager.get .fail [⟨"L1", 1, none, true⟩]
      (fun _ => .ok none) ⟨none, none⟩ "k" =
      ⟨.cacheMiss "Cache miss for key: k", false, []⟩ :=
  multiLevel_fail_strategy_cacheMiss [⟨"L1", 1, none, true⟩] (fun _ => .ok none)
    ⟨none, none⟩ "k" (by intro level hl he; fin_cases hl; rfl)

theorem enableLevelList_no_match (levelName : String) :
    ∀ (levels : List CacheLevel), (∀ l ∈ levels, l.name ≠ levelName) →
      enableLevelList levelName levels = levels := by
  intro levels
  induction levels with
  | nil => intro _; rfl
  | cons level rest ih =>
    intro hno
    unfold enableLevelList
    rw [if_neg (hno level (List.mem_cons_self _ _))]
    rw [ih (fun l hl => hno l (List.mem_cons_of_mem _ hl))]

theorem disableLevelList_no_match (levelName : String) :
    ∀ (levels : List CacheLevel), (∀ l ∈ levels, l.name ≠ levelName) →
      disableLevelList levelName levels = levels := by
  intro levels
  induction levels with
  | nil => intro _; rfl
  | cons level rest ih =>
    intro hno
    unfold disableLevelList
    rw [if_neg (hno level (List.mem_cons_self _ _))]
    rw [ih (fun l hl => hno l (List.mem_cons_of_mem _ hl))]

/-- C10: `enableLevel` / `disableLevel` with a name matching no
configured level are silent no-ops: they throw nothing (they are total)
and leave the whole manager state — every level's flag, the level
order, and the metrics — unchanged. -/
theorem enableDisableLevel_unknown_name_noop (st : MLState) (levelName : String)
    (hno : ∀ l ∈ st.levels, l.name ≠ levelName) :
    MultiLevelManager.enableLevel st levelName = st ∧
    MultiLevelManager.disableLevel st levelName = st := by
  constructor
  · unfold MultiLevelManager.enableLevel
    rw [enableLevelList_no_match levelName st.levels hno]
  · unfold MultiLevelManager.disableLevel
    rw [disableLevelList_no_match levelName st.levels hno]

/-- Witness for C10 at a concrete state and unknown name. -/
theorem enableDisableLevel_unknown_name_noop_witness :
    MultiLevelManager.enableLevel
        ⟨[⟨"L1", 1, none, false⟩], [("L1", ⟨0, 0, 0, 0⟩)]⟩ "L9" =
      ⟨[⟨"L1", 1, none, false⟩], [("L1", ⟨0, 0, 0, 0⟩)]⟩ ∧
    MultiLevelManager.disableLevel
        ⟨[⟨"L1", 1, none, false⟩], [("L1", ⟨0, 0, 0, 0⟩)]⟩ "L9" =
      ⟨[⟨"L1", 1, none, false⟩], [("L1", ⟨0, 0, 0, 0⟩)]⟩ :=
  enableDisableLevel_unknown_name_noop
    ⟨[⟨"L1", 1, none, false⟩], [("L1", ⟨0, 0, 0, 0⟩)]⟩ "L9"
    (by intro l hl; fin_cases hl; decide)

/-! ## Theorems: Read-Through and Write-Through get/set (C3, C4, C5, C8) -/

theorem ReadThroughManager.isRecordValid_some (currentDate : ℚ) (r : Record) :
    ReadThroughManager.isRecordValid currentDate (some r) =
      ((r.permanent || decide (currentDate ≤ r.createdAt + r.expiresIn)) &&
        decide (r.value ≠ none)) := by
  unfold ReadThroughManager.isRecordValid
  by_cases hp : r.permanent <;> by_cases hc : currentDate ≤ r.createdAt + r.expiresIn <;>
    simp [hp, hc, not_le.mpr, lt_of_not_le]

/-- C3: a Read-Through `get` whose storage read succeeds returns the
deserialized stored value exactly when the record exists with a
defined value, is time-valid (`permanent` or
`now ≤ createdAt + expiresIn`), and is not tag-outdated; in every
other case it enters the shared recompute path
(`updateCacheAndGetResult`). -/
theorem readThrough_get_valid_iff (currentDate : ℚ) (record : Option Record)
    (outdated : Bool) :
    (∀ v : String,
      ReadThroughManager.get currentDate (.ok record) outdated = .hit v ↔
        ∃ r, record = some r ∧ r.value = some v ∧
          (r.permanent = true ∨ currentDate ≤ r.createdAt + r.expiresIn) ∧
          outdated = false) ∧
    ((∀ r, record = some r →
        r.value = none ∨
        (r.permanent = false ∧ r.createdAt + r.expiresIn < currentDate) ∨
        outdated = true) →
      ReadThroughManager.get currentDate (.ok record) outdated = .recompute) ∧
    (record = none → ReadThroughManager.get currentDate (.ok record) outdated = .recompute) := by
  rcases record with _ | r
  · refine ⟨fun v => ?_, fun _ => rfl, fun _ => rfl⟩
    simp [ReadThroughManager.get, ReadThroughManager.isRecordValid]
  · rw [show (ReadThroughManager.get currentDate (.ok (some r)) outdated) =
      (if ReadThroughManager.isRecordValid currentDate (some r) && !outdated then
        match r.value with
        | some v => GetResult.hit (deserialize v)
        | none => GetResult.recompute
      else GetResult.recompute) from rfl]
    rw [ReadThroughManager.isRecordValid_some]
    refine ⟨fun v => ?_, fun hother => ?_, fun h => by cases h⟩
    · constructor
      · intro hhit
        by_cases hcond : ((r.permanent || decide (currentDate ≤ r.createdAt + r.expiresIn)) &&
            decide (r.value ≠ none)) && !outdated
        · rw [if_pos hcond] at hhit
          rcases hv : r.value with _ | v'
          · rw [hv] at hhit; cases hhit
          · rw [hv] at hhit
            simp only [deserialize, GetResult.hit.injEq] at hhit
            subst hhit
            simp only [Bool.and_eq_true, Bool.or_eq_true, decide_eq_true_eq,
              Bool.not_eq_true'] at hcond
            exact ⟨r, rfl, hv, by tauto, hcond.2⟩
        · rw [if_neg hcond] at hhit; cases hhit
      · rintro ⟨r', hr', hv, htime, hod⟩
        cases hr'
        have h1 : (r.permanent || decide (currentDate ≤ r.createdAt + r.expiresIn)) = true := by
          rcases htime with h | h <;> simp [h]
        have h2 : (decide (r.value ≠ none)) = true := by simp [hv]
        rw [hod, h1, h2, hv]
        rfl
    · rcases hother r rfl with hv | ⟨hp, hlt⟩ | hod
      · by_cases hcond : ((r.permanent || decide (currentDate ≤ r.createdAt + r.expiresIn)) &&
            decide (r.value ≠ none)) && !outdated
        · rw [if_pos hcond, hv]
        · rw [if_neg hcond]
      · rw [if_neg (by simp [hp, not_le.mpr hlt])]
      · rw [if_neg (by simp [hod])]

/-- Witness for C3: a permanent record with a defined value and a
stale clock still hits. -/
theorem readThrough_get_valid_iff_witness :
    ReadThroughManager.get 500 (.ok (some ⟨"k", some "v", [], 0, 100, true⟩)) false =
      .hit "v" :=
  ((readThrough_get_valid_iff 500 (some ⟨"k", some "v", [], 0, 100, true⟩) false).1 "v").mpr
    ⟨⟨"k", some "v", [], 0, 100, true⟩, rfl, rfl, Or.inl rfl, rfl⟩

/-- C4: a Write-Through `get` whose storage read succeeds returns the
stored record's deserialized value exactly when the record exists with
a defined value — the method consults neither the clock nor
`isOutdated`, so TTL-expired or tag-touched records are served all the
same; on a miss it enters the shared recompute path. -/
theorem writeThrough_get_no_freshness_check (record : Option Record) :
    (∀ v : String,
      WriteThroughManager.get (.ok record) = .hit v ↔
        ∃ r, record = some r ∧ r.value = some v) ∧
    ((∀ r, record = some r → r.value = none) →
      WriteThroughManager.get (.ok record) = .recompute) := by
  rcases record with _ | r
  · refine ⟨fun v => ?_, fun _ => rfl⟩
    simp [WriteThroughManager.get, WriteThroughManager.isRecordValid]
  · refine ⟨fun v => ?_, fun hother => ?_⟩
    · rcases hv : r.value with _ | v'
      · have hrec : WriteThroughManager.get (.ok (some r)) = .recompute := by
          simp [WriteThroughManager.get, WriteThroughManager.isRecordValid, hv]
        rw [hrec]
        constructor
        · intro h; cases h
        · rintro ⟨r', hr', hv'⟩
          cases hr'
          rw [hv] at hv'
          cases hv'
      · have hhit : WriteThroughManager.get (.ok (some r)) = .hit v' := by
          simp [WriteThroughManager.get, WriteThroughManager.isRecordValid, hv, deserialize]
        rw [hhit]
        constructor
        · intro h
          cases h
          exact ⟨r, rfl, hv⟩
        · rintro ⟨r', hr', hv'⟩
          cases hr'
          rw [hv] at hv'
          cases hv'
          rfl
    · have hv := hother r rfl
      simp [WriteThroughManager.get, WriteThroughManager.isRecordValid, hv]

/-- Witness for C4: an expired, non-permanent record is still served
by Write-Through `get`. -/
theorem writeThrough_get_no_freshness_check_witness :
    WriteThroughManager.get (.ok (some ⟨"k", some "v", [], 0, 1, false⟩)) = .hit "v" :=
  ((writeThrough_get_no_freshness_check (some ⟨"k", some "v", [], 0, 1, false⟩)).1 "v").mpr
    ⟨⟨"k", some "v", [], 0, 1, false⟩, rfl, rfl⟩

/-- C5: every record written through Write-Through `set` carries
`permanent = true` — for every key, value, tag list and options,
including `options.permanent = some false` — and therefore passes the
time-expiry validity check at every instant. -/
theorem writeThrough_set_always_permanent (now : ℚ) (key value : String)
    (tags : List Tag) (options : WriteOptions) :
    (WriteThroughManager.set now key value tags options).permanent = true ∧
    ∀ currentDate : ℚ,
      ReadThroughManager.isRecordValid currentDate
        (some (WriteThroughManager.set now key value tags options)) = true := by
  constructor
  · rfl
  · intro currentDate
    rw [ReadThroughManager.isRecordValid_some]
    simp [WriteThroughManager.set, storageSet]

/-- C8: when the storage read of a Read-Through or Write-Through `get`
rejects, the error is not propagated: the call falls back to
`runExecutor`, whose outcome — value or executor failure — is returned
as-is. -/
theorem get_storage_error_falls_back_to_executor (currentDate : ℚ) (outdated : Bool)
    (executor recomputeResult : Except String String) :
    resolveGet (ReadThroughManager.get currentDate (.error ()) outdated)
        executor recomputeResult = executor ∧
    resolveGet (WriteThroughManager.get (.error ())) executor recomputeResult = executor ∧
    runExecutor executor = executor := ⟨rfl, rfl, rfl⟩

/-! ## Theorems: Refresh-Ahead construction (C2) -/

/-- C2 counterexample: `refreshAheadFactor = 0` satisfies the claim's
`f ≤ 0`, yet construction does not throw — JavaScript's
`options.refreshAheadFactor || DEFAULT_REFRESH_AHEAD_FACTOR` treats
`0` as falsy and silently substitutes the default `0.8`. -/
theorem refreshAhead_construct_zero_counterexample :
    JSNum.le (.num 0) (.num 0) = true ∧
    RefreshAheadManager.construct (some (.num 0)) = .ok (.num (4/5)) := by
  constructor
  · simp [JSNum.le]
  · unfold RefreshAheadManager.construct
    norm_num [JSNum.truthy, DEFAULT_REFRESH_AHEAD_FACTOR, JSNum.isFinite, JSNum.le]

/-- C2 amended: construction with a *finite, non-zero* factor `f`
throws exactly when `f < 0` or `f ≥ 1`; a factor of `0` (like `NaN` or
an absent factor) is falsy and silently falls back to the default
`0.8`, and a non-finite factor (`Infinity`) skips validation and is
accepted. -/
theorem refreshAhead_construct_spec :
    (∀ q : ℚ, q ≠ 0 →
      ((∃ e, RefreshAheadManager.construct (some (.num q)) = .error e) ↔
        (q < 0 ∨ 1 ≤ q))) ∧
    RefreshAheadManager.construct (some (.num 0)) = .ok (.num (4/5)) ∧
    RefreshAheadManager.construct (some .nan) = .ok (.num (4/5)) ∧
    RefreshAheadManager.construct (some .posInf) = .ok .posInf ∧
    RefreshAheadManager.construct none = .ok (.num (4/5)) := by
  refine ⟨?_, ?_, ?_, ?_, ?_⟩
  · intro q hq
    have hred : RefreshAheadManager.construct (some (.num q)) =
        if q ≤ 0 then Except.error "Refresh-Ahead factor should be more than 0"
        else if 1 ≤ q then Except.error "Refresh-Ahead factor should be under 1"
        else Except.ok (.num q) := by
      unfold RefreshAheadManager.construct
      simp [JSNum.truthy, hq, JSNum.isFinite, JSNum.le]
    rw [hred]
    by_cases h0 : q ≤ 0
    · have hlt : q < 0 := lt_of_le_of_ne h0 hq
      simp [h0, hlt]
    · by_cases h1 : 1 ≤ q
      · simp [h0, h1]
      · simp [h0, h1, not_lt.mpr (le_of_not_le h0)]
  · unfold RefreshAheadManager.construct
    norm_num [JSNum.truthy, DEFAULT_REFRESH_AHEAD_FACTOR, JSNum.isFinite, JSNum.le]
  · unfold RefreshAheadManager.construct
    norm_num [JSNum.truthy, DEFAULT_REFRESH_AHEAD_FACTOR, JSNum.isFinite, JSNum.le]
  · unfold RefreshAheadManager.construct
    norm_num [JSNum.truthy, DEFAULT_REFRESH_AHEAD_FACTOR, JSNum.isFinite, JSNum.le]
  · unfold RefreshAheadManager.construct
    norm_num [DEFAULT_REFRESH_AHEAD_FACTOR, JSNum.isFinite, JSNum.le]

/-- Witness for C2's amended claim at `f = 2`: construction throws. -/
theorem refreshAhead_construct_spec_witness :
    ∃ e, RefreshAheadManager.construct (some (.num 2)) = .error e :=
  ((refreshAhead_construct_spec.1 2 (by norm_num))).mpr (Or.inr (by norm_num))

/-! ## Theorems: Refresh-Ahead get (C9) -/

/-- C9 counterexample: a *permanent* fresh record with
`now > createdAt + expiresIn × factor` triggers no background refresh —
`isRecordExpireSoon` additionally requires `!record.permanent`, which
the claim omits. At `createdAt = 0`, `expiresIn = 0`,
`permanent = true`, `now = 1`, `factor = 4/5`: the get hits but the
refresh flag is `false` although `1 > 0 + 0 × (4/5)`. -/
theorem refreshAhead_permanent_no_refresh_counterexample :
    RefreshAheadManager.get (4/5) 1 (.ok (some ⟨"k", some "v", [], 0, 0, true⟩)) false =
      (.hit "v", false) ∧
    ((0 : ℚ) + 0 * (4/5) < 1) := by
  constructor
  · rfl
  · norm_num

/-- C9 amended: a Refresh-Ahead `get` that returns a fresh record
initiates a background refresh exactly when the record is **not
permanent** and `now > createdAt + expiresIn × refreshAheadFactor`;
the synchronous caller receives the cached value either way, the
refresh always releases the `refreshAhead:<key>` lock it acquired, and
refresh errors are logged and swallowed (`refresh` settles to a
`RefreshOutcome`, never a rejection). -/
theorem refreshAhead_get_refresh_iff (factor currentDate : ℚ) (r : Record) (v : String)
    (outdated : Bool) (hv : r.value = some v)
    (hvalid : RefreshAheadManager.isRecordValid currentDate (some r) = true)
    (hod : outdated = false) :
    RefreshAheadManager.get factor currentDate (.ok (some r)) outdated =
      (.hit v, !r.permanent && decide (currentDate > r.createdAt + r.expiresIn * factor)) ∧
    ((RefreshAheadManager.get factor currentDate (.ok (some r)) outdated).2 = true ↔
      (r.permanent = false ∧ r.createdAt + r.expiresIn * factor < currentDate)) ∧
    (∀ (lockOk : Bool) (executorResult : Except String String) (setOk : Bool),
      (RefreshAheadManager.refresh lockOk executorResult setOk).releasedLock = lockOk) ∧
    (∀ key : String, RefreshAheadManager.refreshAheadKey key = "refreshAhead:" ++ key) := by
  have hmain : RefreshAheadManager.get factor currentDate (.ok (some r)) outdated =
      (.hit v, !r.permanent && decide (currentDate > r.createdAt + r.expiresIn * factor)) := by
    simp only [RefreshAheadManager.get, hvalid, hod, hv, Bool.not_false, Bool.and_self,
      if_true]
    rfl
  refine ⟨hmain, ?_, ?_, fun _ => rfl⟩
  · rw [hmain]
    cases hp : r.permanent <;> simp [hp]
  · intro lockOk executorResult setOk
    cases lockOk with
    | false => rfl
    | true => cases executorResult <;> cases setOk <;> rfl

/-- Witness for C9's amended claim: a non-permanent fresh record inside
its refresh window (`now = 90`, `createdAt = 0`, `expiresIn = 100`,
`factor = 4/5`) hits and initiates the refresh. -/
theorem refreshAhead_get_refresh_iff_witness :
    RefreshAheadManager.get (4/5) 90 (.ok (some ⟨"k", some "v", [], 0, 100, false⟩)) false =
      (.hit "v", true) := by
  have h := refreshAhead_get_refresh_iff (4/5) 90 ⟨"k", some "v", [], 0, 100, false⟩ "v"
    false rfl
    (by simp [RefreshAheadManager.isRecordValid, ReadThroughManager.isRecordValid]
        norm_num)
    rfl
  rw [h.1]
  norm_num

end Cachalot
